import Mathlib

/-!
Verification of the beekeeper repository's data-shaping helpers
(`beekeeper/utils.py`) against its natural-language specification.

The Python functions are shallowly embedded: dataframes become lists of
rows, YAML files become association lists, the file system becomes an
association list from paths to contents, and raised exceptions become
`Except` / `Option` failures.
-/

namespace Beekeeper

/-- A scalar cell value, as stored in the dash table
(values passed to the table component are str, number or bool). -/
inductive Value
  | str (s : String)
  | int (n : Int)
  | bool (b : Bool)
deriving DecidableEq

/-- A table row, as the ordered dictionary from column name to value that
dash hands to the callbacks (`list[dict]` rows in utils.py). -/
abbrev Row := List (String × Value)

/-- A YAML value as loaded by `yaml.safe_load`: either a scalar or a
nested dictionary. -/
inductive YamlValue
  | val (v : Value)
  | dict (entries : List (String × Value))
deriving DecidableEq

/-- Rendering of a scalar, used only to model Python str() on dict values. -/
def Value.render : Value → String
  | .str s => s
  | .int n => toString n
  | .bool b => toString b

/-- Python str() of a dictionary, as applied by df_from_metadata_yaml_files
to nested-dict YAML values (`v if not isinstance(v, dict) else str(v)`).
The exact rendering of the dict is immaterial to every claim. -/
def renderDict (d : List (String × Value)) : String :=
  "\x7b" ++ String.intercalate ", " (d.map (fun kv => kv.1 ++ ": " ++ kv.2.render)) ++ "\x7d"

/-- Convert a loaded YAML value to a dataframe cell:
scalars are kept, dicts are stringified (utils.py lines 54 and 57). -/
def YamlValue.toCell : YamlValue → Value
  | .val v => v
  | .dict d => .str (renderDict d)

/-- Python str.endswith, modelled over the underlying character lists. -/
def strEndsWith (s suffix : String) : Bool :=
  suffix.toList.isSuffixOf s.toList

/-- File-system errors surfaced by the Python code
(FileNotFoundError from a missing directory, OSError and friends while
reading a file). -/
inductive FsError
  | fileNotFound
  | readError (msg : String)
deriving DecidableEq

/-- A file in the videos directory: its name (full path as produced by
`Path.iterdir`) and the outcome of opening and yaml-loading it. -/
structure YamlFile where
  name : String
  content : Except FsError (List (String × YamlValue))

/-- A pandas dataframe with single-level columns: column names plus a list
of positional rows. -/
structure Table where
  columns : List String
  rows : List (List Value)
deriving DecidableEq

/-- The single-row dataframe built from one metadata YAML file
(utils.py lines 52-61). -/
def fileToDf (entries : List (String × YamlValue)) : Table :=
  { columns := entries.map Prod.fst
    rows := [entries.map (fun kv => kv.2.toCell)] }

/-- Value of column `c` in a positional row of table `d`. -/
def Table.cell (d : Table) (row : List Value) (c : String) : Option Value :=
  (d.columns.zip row).lookup c

/-- pd.concat with ignore_index=True and join="inner"
(utils.py line 63): the columns are those of the first frame that occur
in every frame, and the rows of all frames are stacked. -/
def concatInner (dfs : List Table) : Table :=
  match dfs with
  | [] => { columns := [], rows := [] }
  | d0 :: _ =>
    let cols := d0.columns.filter (fun c => dfs.all (fun d => d.columns.contains c))
    { columns := cols
      rows := dfs.flatMap (fun d => d.rows.map (fun row => cols.filterMap (d.cell row))) }

/-- Read the content of each file in order, propagating the first error,
as the Python `for yl in list_metadata_files: open(yl)` loop does. -/
def readYamlFiles : List YamlFile → Except FsError (List (List (String × YamlValue)))
  | [] => .ok []
  | f :: fs => do
    let y ← f.content
    let ys ← readYamlFiles fs
    .ok (y :: ys)

/-- utils.py `df_from_metadata_yaml_files`. The parent directory is
`none` when it does not exist (Path.iterdir then raises
FileNotFoundError) and otherwise the list of its entries. When no entry
name ends in ".metadata.yaml" the fallback schema-only frame is built
from the metadata fields dict (one row of empty strings; pandas gives a
rowless frame when the dict is empty); otherwise the YAML files are
loaded (read errors propagate) and concatenated with join="inner". -/
def df_from_metadata_yaml_files (parent_dir : Option (List YamlFile))
    (metadata_fields_dict : List (String × String)) : Except FsError Table :=
  match parent_dir with
  | none => .error .fileNotFound
  | some files =>
    let list_metadata_files := files.filter (fun f => strEndsWith f.name ".metadata.yaml")
    if list_metadata_files.isEmpty then
      .ok { columns := metadata_fields_dict.map Prod.fst
            rows := if metadata_fields_dict.isEmpty then []
                    else [metadata_fields_dict.map (fun _ => Value.str "")] }
    else do
      let yamls ← readYamlFiles list_metadata_files
      .ok (concatInner (yamls.map fileToDf))

/-- C2: for an existing directory with no ".metadata.yaml" entry and any
metadata fields dictionary, `df_from_metadata_yaml_files` returns the
schema-only table: its columns are exactly the keys of the dictionary
and it holds no video metadata (every cell of every row is the empty
string). -/
theorem df_from_metadata_yaml_files_empty_dir_schema_table
    (files : List YamlFile) (fields : List (String × String))
    (h : ∀ f ∈ files, strEndsWith f.name ".metadata.yaml" = false) :
    ∃ t, df_from_metadata_yaml_files (some files) fields = .ok t ∧
      t.columns = fields.map Prod.fst ∧
      ∀ row ∈ t.rows, ∀ c ∈ row, c = Value.str "" := by
  have hfilter : files.filter (fun f => strEndsWith f.name ".metadata.yaml") = [] := by
    apply List.filter_eq_nil_iff.mpr
    intro f hf
    simp [h f hf]
  have hval : df_from_metadata_yaml_files (some files) fields =
      .ok { columns := fields.map Prod.fst
            rows := if fields.isEmpty then []
                    else [fields.map (fun _ => Value.str "")] } := by
    unfold df_from_metadata_yaml_files
    dsimp only
    rw [hfilter]
    rfl
  refine ⟨_, hval, rfl, ?_⟩
  intro row hrow c hc
  by_cases hfe : fields.isEmpty
  · simp [hfe] at hrow
  · simp only [hfe, Bool.false_eq_true, if_false, List.mem_singleton] at hrow
    subst hrow
    obtain ⟨kv, _, rfl⟩ := List.mem_map.mp hc
    rfl

/-- Closed instance of the C2 theorem at a concrete directory holding one
non-metadata file. -/
theorem df_from_metadata_yaml_files_empty_dir_schema_table_witness :
    (∀ f ∈ [YamlFile.mk "videos/readme.txt" (.ok [])],
        strEndsWith f.name ".metadata.yaml" = false) ∧
    ∃ t, df_from_metadata_yaml_files (some [YamlFile.mk "videos/readme.txt" (.ok [])])
          [("File", "video file"), ("Species_name", "species")] = .ok t ∧
      t.columns = [("File", "video file"), ("Species_name", "species")].map Prod.fst ∧
      ∀ row ∈ t.rows, ∀ c ∈ row, c = Value.str "" :=
  ⟨by decide,
   df_from_metadata_yaml_files_empty_dir_schema_table
     [YamlFile.mk "videos/readme.txt" (.ok [])]
     [("File", "video file"), ("Species_name", "species")]
     (by decide)⟩

/-- Reading a run of successfully-loading files followed by a failing file
surfaces exactly that failure, as the sequential Python read loop does. -/
theorem readYamlFiles_error (pre : List YamlFile) (f : YamlFile) (post : List YamlFile)
    (e : FsError)
    (hpre : ∀ g ∈ pre, ∃ y, g.content = .ok y) (herr : f.content = .error e) :
    readYamlFiles (pre ++ f :: post) = .error e := by
  induction pre with
  | nil =>
    simp only [List.nil_append]
    unfold readYamlFiles
    rw [herr]
    rfl
  | cons g gs ih =>
    obtain ⟨y, hg⟩ := hpre g (List.mem_cons_self g gs)
    have ih2 := ih (fun x hx => hpre x (List.mem_cons_of_mem g hx))
    simp only [List.cons_append]
    unfold readYamlFiles
    rw [hg, ih2]
    rfl

/-- C8: with a missing parent directory `df_from_metadata_yaml_files`
fails with the file-not-found error instead of returning the fallback
table, and a read error hit while loading the metadata YAML files (here:
the first failing file, every earlier metadata file loading fine)
propagates unchanged to the caller. -/
theorem df_from_metadata_yaml_files_error_propagation
    (files : List YamlFile) (fields : List (String × String))
    (pre : List YamlFile) (f : YamlFile) (post : List YamlFile) (e : FsError)
    (hsplit : files.filter (fun g => strEndsWith g.name ".metadata.yaml") = pre ++ f :: post)
    (hpre : ∀ g ∈ pre, ∃ y, g.content = .ok y)
    (herr : f.content = .error e) :
    df_from_metadata_yaml_files none fields = .error .fileNotFound ∧
    df_from_metadata_yaml_files (some files) fields = .error e := by
  refine ⟨rfl, ?_⟩
  unfold df_from_metadata_yaml_files
  dsimp only
  rw [hsplit]
  have hne : (pre ++ f :: post).isEmpty = false := by cases pre <;> rfl
  rw [hne]
  simp only [Bool.false_eq_true, if_false]
  rw [readYamlFiles_error pre f post e hpre herr]
  rfl

/-- Closed instance of the C8 theorem: one metadata file whose read
fails. -/
theorem df_from_metadata_yaml_files_error_propagation_witness :
    ([YamlFile.mk "videos/x.metadata.yaml" (.error (.readError "bad yaml"))].filter
        (fun g => strEndsWith g.name ".metadata.yaml") =
      [] ++ YamlFile.mk "videos/x.metadata.yaml" (.error (.readError "bad yaml")) :: []) ∧
    (∀ g ∈ ([] : List YamlFile), ∃ y, g.content = .ok y) ∧
    ((YamlFile.mk "videos/x.metadata.yaml" (.error (.readError "bad yaml"))).content =
      .error (.readError "bad yaml")) ∧
    (df_from_metadata_yaml_files none [("File", "video file")] = .error .fileNotFound ∧
     df_from_metadata_yaml_files
        (some [YamlFile.mk "videos/x.metadata.yaml" (.error (.readError "bad yaml"))])
        [("File", "video file")] = .error (.readError "bad yaml")) :=
  ⟨rfl, by simp, rfl,
   df_from_metadata_yaml_files_error_propagation
     [YamlFile.mk "videos/x.metadata.yaml" (.error (.readError "bad yaml"))]
     [("File", "video file")]
     [] (YamlFile.mk "videos/x.metadata.yaml" (.error (.readError "bad yaml"))) [] (.readError "bad yaml")
     rfl (by simp) rfl⟩

/-- The distinct rows of the data table in order of first appearance:
the key enumeration that pandas' factorize produces for the left frame
of the merge. -/
def firstKeys : List Row → List Row
  | [] => []
  | r :: rs => r :: (firstKeys rs).filter (fun k => decide (k ≠ r))

/-- Walk the key groups of the outer-merged frame, accumulating the
range-index position: a key matching no previous row contributes one
"left_only" merged row per occurrence in `data`, and a key matching
pc > 0 previous rows contributes (occurrences in data) * pc merged rows
marked "both". -/
def groupedLeftOnlyGo (data data_previous : List Row) : List Row → Nat → List Nat
  | [], _ => []
  | k :: ks, pos =>
    if data_previous.countP (fun r => decide (r = k)) = 0 then
      (List.range (data.countP (fun r => decide (r = k)))).map (fun j => pos + j) ++
        groupedLeftOnlyGo data data_previous ks
          (pos + data.countP (fun r => decide (r = k)))
    else
      groupedLeftOnlyGo data data_previous ks
        (pos + data.countP (fun r => decide (r = k)) *
          data_previous.countP (fun r => decide (r = k)))

/-- Index positions, in pandas' outer-merged frame
`df.merge(df_previous, how="outer", indicator=True)` of utils.py line 95,
of the rows marked "left_only". The merge is on all shared columns, i.e.
on whole rows here, and the merged frame is grouped by key: all
occurrences of one distinct data row appear together, each expanded to
one merged row per matching previous row ("both"), or kept as a single
"left_only" row when the previous table holds no equal row.
Previous-only rows receive key codes after every data key, so they never
precede a left_only row. The key groups are enumerated in
first-appearance order, as the factorize-based outer join emits them
before pandas 2.2; pandas 2.2 sorts the key groups lexicographically
instead, which only permutes the groups (the C3 failing input below
diverges identically under either group order). The merged frame
carries a fresh zero-based range index, which is what
`df_diff.index.tolist()` reports. -/
def groupedLeftOnlyIndices (data data_previous : List Row) : List Nat :=
  groupedLeftOnlyGo data data_previous (firstKeys data) 0

/-- utils.py `set_edited_row_checkbox_to_true`: diff the two snapshots via
an outer merge and append the indices of the left-only rows that are not
already selected. -/
def set_edited_row_checkbox_to_true (data_previous data : List Row)
    (list_selected_rows : List Nat) : List Nat :=
  let df_diff_index := groupedLeftOnlyIndices data data_previous
  list_selected_rows ++
    df_diff_index.filter (fun i => decide (i ∉ list_selected_rows))

/-- The edited-row indices as claim C3 words them: the positions in
`data` of the rows that do not appear in `data_previous`. -/
def claimedEditedIndices (data_previous data : List Row) : List Nat :=
  (data.enum.filter (fun p => decide (p.2 ∉ data_previous))).map Prod.fst

/-- C3: evaluating the code at the failing input. With previous snapshot
[[v: 0], [v: 0]] and data [[v: 0], [v: 1]], the unedited data row is
equal to both previous rows and so occupies two merged rows, putting the
edited row at merged index 2 — under the first-appearance and the
lexicographic group orders alike — so the code returns [2] and checks
the box of a nonexistent third row, while the claim (and the docstring
intent of checking the edited row's box, selection indices being
positions in data) requires [1]. -/
theorem set_edited_row_checkbox_counterexample :
    set_edited_row_checkbox_to_true
        [[("v", Value.int 0)], [("v", Value.int 0)]]
        [[("v", Value.int 0)], [("v", Value.int 1)]] [] = [2] ∧
    ([] : List Nat) ++ (claimedEditedIndices
        [[("v", Value.int 0)], [("v", Value.int 0)]]
        [[("v", Value.int 0)], [("v", Value.int 1)]]).filter
          (fun i => decide (i ∉ ([] : List Nat))) = [1] ∧
    set_edited_row_checkbox_to_true
        [[("v", Value.int 0)], [("v", Value.int 0)]]
        [[("v", Value.int 0)], [("v", Value.int 1)]] [] ≠
      ([] : List Nat) ++ (claimedEditedIndices
        [[("v", Value.int 0)], [("v", Value.int 0)]]
        [[("v", Value.int 0)], [("v", Value.int 1)]]).filter
          (fun i => decide (i ∉ ([] : List Nat))) := by
  refine ⟨by decide, by decide, by decide⟩

/-- C10: the function never deselects a row: the input selection is kept
as-is at the front of the returned list, and every appended index is not
already selected. -/
theorem set_edited_row_checkbox_monotone
    (data_previous data : List Row) (sel : List Nat) :
    (set_edited_row_checkbox_to_true data_previous data sel).take sel.length = sel ∧
    (∀ i ∈ sel, i ∈ set_edited_row_checkbox_to_true data_previous data sel) ∧
    (∀ i ∈ (set_edited_row_checkbox_to_true data_previous data sel).drop sel.length,
        i ∉ sel) := by
  unfold set_edited_row_checkbox_to_true
  refine ⟨?_, ?_, ?_⟩
  · exact List.take_left sel _
  · intro i hi
    exact List.mem_append_left _ hi
  · intro i hi
    rw [List.drop_left] at hi
    exact of_decide_eq_true (List.mem_filter.mp hi).2

/-- Last component of a path, as pathlib's `Path(...).name`: the
characters after the last '/' separator. -/
def pathName (p : String) : String :=
  String.mk ((p.toList.reverse.takeWhile (fun c => !(c == '/'))).reverse)

/-- Index of the last '.' in a list of characters, as Python rfind. -/
def rfindDot (cs : List Char) : Option Nat :=
  ((cs.enum.filter (fun pr => pr.2 == '.')).map Prod.fst).getLast?

/-- pathlib `Path(...).stem`: the final path component without its last
suffix; a leading or trailing dot is not a suffix separator. -/
def stem (p : String) : String :=
  let nm := pathName p
  let cs := nm.toList
  match rfindDot cs with
  | some i => if 0 < i ∧ i < cs.length - 1 then String.mk (cs.take i) else nm
  | none => nm

/-- The app-storage entries used by `export_selected_rows_as_yaml`. -/
structure ExportStorage where
  metadata_key_field_str : String
  videos_dir_path : String

/-- The list comprehension `[data[i] for i in list_selected_rows]`:
collect the selected rows, failing (IndexError) on an out-of-range
index. -/
def selectRows (data : List Row) : List Nat → Option (List Row)
  | [] => some []
  | i :: rest => do
    let r ← data.get? i
    let rs ← selectRows data rest
    some (r :: rs)

/-- The write loop of utils.py lines 124-133: for each selected row, take
the stem of the key-field value, and write the row (yaml.dump with
sort_keys=False keeps the fields in their original order) to
`<videos_dir_path>/<stem>.metadata.yaml`. A missing key field (KeyError)
or a non-string key value (TypeError in Path) raises. The returned list
records the file writes in order as (path, content) pairs. -/
def writeRowsAsYaml (st : ExportStorage) : List Row → Option (List (String × Row))
  | [] => some []
  | row :: rest => do
    let v ← row.lookup st.metadata_key_field_str
    match v with
    | .str s => do
      let ws ← writeRowsAsYaml st rest
      some ((st.videos_dir_path ++ "/" ++ (stem s ++ ".metadata.yaml"), row) :: ws)
    | _ => none

/-- utils.py `export_selected_rows_as_yaml`, with the performed file
writes made explicit as the result value. -/
def export_selected_rows_as_yaml (data : List Row) (list_selected_rows : List Nat)
    (app_storage : ExportStorage) : Option (List (String × Row)) := do
  let rows ← selectRows data list_selected_rows
  writeRowsAsYaml app_storage rows

/-- C7: when every selected index addresses a row whose key field holds a
string, the export writes exactly one YAML file per selected index, in
order, named after the stem of that row's key-field value followed by
".metadata.yaml" inside the videos directory, whose content is the row
with its fields in their original order; and every written file comes
from a selected row, so unselected rows cause no write. -/
theorem export_selected_rows_as_yaml_spec
    (data : List Row) (sel : List Nat) (st : ExportStorage)
    (hkey : ∀ i ∈ sel, ∃ row s, data.get? i = some row ∧
        row.lookup st.metadata_key_field_str = some (.str s)) :
    ∃ writes, export_selected_rows_as_yaml data sel st = some writes ∧
      writes.length = sel.length ∧
      (∀ j i, sel.get? j = some i → ∃ row s, data.get? i = some row ∧
          row.lookup st.metadata_key_field_str = some (.str s) ∧
          writes.get? j =
            some (st.videos_dir_path ++ "/" ++ (stem s ++ ".metadata.yaml"), row)) ∧
      (∀ w ∈ writes, ∃ i, i ∈ sel ∧ data.get? i = some w.2) := by
  induction sel with
  | nil =>
    refine ⟨[], rfl, rfl, ?_, ?_⟩
    · intro j i hj
      simp at hj
    · intro w hw
      simp at hw
  | cons i rest ih =>
    obtain ⟨row, s, hrow, hs⟩ := hkey i (List.mem_cons_self i rest)
    obtain ⟨ws, hws, hlen, hat, hfrom⟩ := ih (fun j hj => hkey j (List.mem_cons_of_mem i hj))
    obtain ⟨rows, hsr, hwr⟩ :
        ∃ rows, selectRows data rest = some rows ∧ writeRowsAsYaml st rows = some ws := by
      unfold export_selected_rows_as_yaml at hws
      cases hsr : selectRows data rest with
      | none => rw [hsr] at hws; cases hws
      | some rows =>
        rw [hsr] at hws
        exact ⟨rows, rfl, hws⟩
    have hsel2 : selectRows data (i :: rest) = some (row :: rows) := by
      have hrow2 : data[i]? = some row := by
        rw [← List.get?_eq_getElem?]
        exact hrow
      simp [selectRows, hsr, hrow2]
    have hwr2 : writeRowsAsYaml st (row :: rows) =
        some ((st.videos_dir_path ++ "/" ++ (stem s ++ ".metadata.yaml"), row) :: ws) := by
      simp [writeRowsAsYaml, hs, hwr]
    refine ⟨(st.videos_dir_path ++ "/" ++ (stem s ++ ".metadata.yaml"), row) :: ws,
        ?_, ?_, ?_, ?_⟩
    · unfold export_selected_rows_as_yaml
      rw [hsel2]
      exact hwr2
    · simpa using hlen
    · intro j i2 hj
      match j with
      | 0 =>
        have hii : i = i2 := by simpa using hj
        subst hii
        exact ⟨row, s, hrow, hs, rfl⟩
      | j' + 1 =>
        exact hat j' i2 hj
    · intro w hw
      rcases List.mem_cons.mp hw with h | h
      · subst h
        exact ⟨i, List.mem_cons_self i rest, hrow⟩
      · obtain ⟨i2, hi2, hdat⟩ := hfrom w h
        exact ⟨i2, List.mem_cons_of_mem i hi2, hdat⟩

/-- Closed instance of the C7 theorem: one table row, index 0 selected. -/
theorem export_selected_rows_as_yaml_spec_witness :
    (∀ i ∈ [0], ∃ row s,
        ([[("File", Value.str "videos/v1.avi"), ("Species_name", Value.str "wasp")]] :
            List Row).get? i = some row ∧
        row.lookup "File" = some (.str s)) ∧
    ∃ writes, export_selected_rows_as_yaml
        [[("File", Value.str "videos/v1.avi"), ("Species_name", Value.str "wasp")]]
        [0] (ExportStorage.mk "File" "videos") = some writes ∧
      writes.length = ([0] : List Nat).length ∧
      (∀ j i, ([0] : List Nat).get? j = some i → ∃ row s,
          ([[("File", Value.str "videos/v1.avi"), ("Species_name", Value.str "wasp")]] :
              List Row).get? i = some row ∧
          row.lookup "File" = some (.str s) ∧
          writes.get? j = some ("videos" ++ "/" ++ (stem s ++ ".metadata.yaml"), row)) ∧
      (∀ w ∈ writes, ∃ i, i ∈ [0] ∧
          ([[("File", Value.str "videos/v1.avi"), ("Species_name", Value.str "wasp")]] :
              List Row).get? i = some w.2) :=
  ⟨fun i hi => by
      rcases List.mem_singleton.mp hi with rfl
      exact ⟨[("File", Value.str "videos/v1.avi"), ("Species_name", Value.str "wasp")],
        "videos/v1.avi", rfl, rfl⟩,
   export_selected_rows_as_yaml_spec
     [[("File", Value.str "videos/v1.avi"), ("Species_name", Value.str "wasp")]]
     [0] (ExportStorage.mk "File" "videos")
     (fun i hi => by
        rcases List.mem_singleton.mp hi with rfl
        exact ⟨[("File", Value.str "videos/v1.avi"), ("Species_name", Value.str "wasp")],
          "videos/v1.avi", rfl, rfl⟩)⟩

/-- One (x, y, likelihood) cell of the DLC table. Coordinates are
modelled as integers; nothing in the restructuring depends on the
numeric type. -/
structure Coord where
  x : Int
  y : Int
  likelihood : Int
deriving DecidableEq

/-- The dataframe read from the DLC h5 file: multi-level columns
(scorer, [individuals,] bodyparts, coords) with coords x, y, likelihood,
and one row per frame (the zero-based range index). A single-animal
table has `individuals = none`; `rows` lists, per frame, one Coord per
bodypart in column order. For a multianimal table only the presence of
the "individuals" column level matters below, because the restructuring
fails before touching the data. -/
structure DLCFrameTable where
  scorer : String
  individuals : Option (List String)
  bodyparts : List String
  rows : List (List Coord)
deriving DecidableEq

/-- `df.columns.names` of the DLC dataframe. -/
def DLCFrameTable.columnLevelNames (t : DLCFrameTable) : List String :=
  ["scorer"] ++ (match t.individuals with | some _ => ["individuals"] | none => []) ++
    ["bodyparts", "coords"]

/-- A row of the restructured long-format table; the record fields are
the single-level columns in their final order: model_str, frame,
bodypart, x, y, likelihood. -/
structure DLCRow where
  model_str : String
  frame : Nat
  bodypart : String
  x : Int
  y : Int
  likelihood : Int
deriving DecidableEq

/-- Stacking the scorer and bodyparts column levels into the row index
(utils.py line 193) followed by reset_index: every (frame, bodypart)
cell of the input becomes one long-format row. -/
def stackFrom (scorer : String) (bodyparts : List String) :
    List (List Coord) → Nat → List DLCRow
  | [], _ => []
  | cells :: rest, i =>
    (bodyparts.zip cells).map (fun bc =>
      { model_str := scorer, frame := i, bodypart := bc.1,
        x := bc.2.x, y := bc.2.y, likelihood := bc.2.likelihood }) ++
    stackFrom scorer bodyparts rest (i + 1)

/-- All long-format rows of a single-animal table, frames zero-indexed. -/
def stackedRows (t : DLCFrameTable) : List DLCRow :=
  stackFrom t.scorer t.bodyparts t.rows 0

/-- The sort key of utils.py line 239: by bodypart, then by frame. -/
def dlcLE (a b : DLCRow) : Prop :=
  a.bodypart < b.bodypart ∨ (a.bodypart = b.bodypart ∧ a.frame ≤ b.frame)

instance : DecidableRel dlcLE := fun a b => by
  unfold dlcLE
  infer_instance

instance : IsTotal DLCRow dlcLE := ⟨by
  intro a b
  rcases lt_trichotomy a.bodypart b.bodypart with h | h | h
  · exact Or.inl (Or.inl h)
  · rcases Nat.le_total a.frame b.frame with hf | hf
    · exact Or.inl (Or.inr ⟨h, hf⟩)
    · exact Or.inr (Or.inr ⟨h.symm, hf⟩)
  · exact Or.inr (Or.inl h)⟩

instance : IsTrans DLCRow dlcLE := ⟨by
  intro a b c hab hbc
  rcases hab with h1 | ⟨e1, f1⟩
  · rcases hbc with h2 | ⟨e2, f2⟩
    · exact Or.inl (h1.trans h2)
    · exact Or.inl (e2 ▸ h1)
  · rcases hbc with h2 | ⟨e2, f2⟩
    · exact Or.inl (by rw [e1]; exact h2)
    · exact Or.inr ⟨e1.trans e2, f1.trans f2⟩⟩

/-- utils.py `read_and_restructure_DLC_dataframe`, applied to the
dataframe read from the h5 file. `is_multianimal` checks the
"individuals" column level; the stack call (line 193) requires every
requested level name to exist among the column level names and raises a
KeyError otherwise — note the code requests "individual" (singular)
while the level is named "individuals". In the surviving single-animal
path the stack, reset_index, rename, reorder and final index reset are
together represented by building `DLCRow` records, and sort_values by
(bodypart, frame) by a stable sort under `dlcLE`. -/
def read_and_restructure_DLC_dataframe (t : DLCFrameTable) : Except String (List DLCRow) :=
  let is_multianimal := t.columnLevelNames.contains "individuals"
  let columns_to_stack := ["scorer", "bodyparts"] ++
    (if is_multianimal then ["individual"] else [])
  if columns_to_stack.all (fun lvl => t.columnLevelNames.contains lvl) then
    .ok (List.insertionSort dlcLE (stackedRows t))
  else
    .error "KeyError: level individual not found in columns"

/-- Counting matching bodyparts through the zip with a full row of
cells. -/
theorem countP_zip_fst (bp : String) : ∀ (bs : List String) (cs : List Coord),
    cs.length = bs.length →
    (bs.zip cs).countP (fun bc => decide (bc.1 = bp)) =
      bs.countP (fun b => decide (b = bp)) := by
  intro bs
  induction bs with
  | nil => intro cs h; rfl
  | cons b bs ih =>
    intro cs h
    cases cs with
    | nil => simp at h
    | cons c cs =>
      rw [List.zip_cons_cons, List.countP_cons, List.countP_cons, ih cs (by simpa using h)]

/-- Length of the stacked rows of a well-formed table. -/
theorem stackFrom_length (scorer : String) (bodyparts : List String) :
    ∀ (rows : List (List Coord)) (i : Nat),
      (∀ r ∈ rows, r.length = bodyparts.length) →
      (stackFrom scorer bodyparts rows i).length = rows.length * bodyparts.length := by
  intro rows
  induction rows with
  | nil => intro i _; simp [stackFrom]
  | cons cells rest ih =>
    intro i h
    have hc : cells.length = bodyparts.length := h cells (List.mem_cons_self cells rest)
    have hr := ih (i + 1) (fun r hr => h r (List.mem_cons_of_mem cells hr))
    simp only [stackFrom, List.length_append, List.length_map, List.length_zip, hc, hr,
      Nat.min_self, List.length_cons]
    ring

/-- Every stacked row carries the scorer as its model_str. -/
theorem stackFrom_model_str (scorer : String) (bodyparts : List String) :
    ∀ (rows : List (List Coord)) (i : Nat) (r : DLCRow),
      r ∈ stackFrom scorer bodyparts rows i → r.model_str = scorer := by
  intro rows
  induction rows with
  | nil => intro i r hr; cases hr
  | cons cells rest ih =>
    intro i r hr
    rcases List.mem_append.mp hr with h | h
    · obtain ⟨bc, _, rfl⟩ := List.mem_map.mp h
      rfl
    · exact ih (i + 1) r h

/-- Counting (frame, bodypart) matches in the block of rows stacked out
of a single input frame. -/
theorem countP_stackRow (scorer : String) (j i0 : Nat) (bp : String) :
    ∀ (l : List (String × Coord)),
      (l.map (fun bc => (⟨scorer, j, bc.1, bc.2.x, bc.2.y, bc.2.likelihood⟩ : DLCRow))).countP
          (fun r => decide (r.frame = i0 ∧ r.bodypart = bp)) =
        if j = i0 then l.countP (fun bc => decide (bc.1 = bp)) else 0 := by
  intro l
  induction l with
  | nil => by_cases h : j = i0 <;> simp [h]
  | cons a l ih =>
    by_cases h : j = i0
    · subst h
      rw [if_pos rfl] at ih
      rw [List.map_cons, List.countP_cons, List.countP_cons, if_pos rfl, ih]
      congr 1
      simp
    · rw [List.map_cons, List.countP_cons, ih, if_neg h, if_neg h]
      simp [h]

/-- Each (frame, bodypart) pair of a well-formed table appears in the
stacked rows exactly as often as the bodypart appears among the column
bodyparts (and frames outside the table not at all). -/
theorem stackFrom_countP (scorer : String) (bodyparts : List String)
    (i0 : Nat) (bp : String) :
    ∀ (rows : List (List Coord)) (j : Nat),
      (∀ r ∈ rows, r.length = bodyparts.length) →
      (stackFrom scorer bodyparts rows j).countP
          (fun r => decide (r.frame = i0 ∧ r.bodypart = bp)) =
        if j ≤ i0 ∧ i0 < j + rows.length then
          bodyparts.countP (fun b => decide (b = bp)) else 0 := by
  intro rows
  induction rows with
  | nil =>
    intro j _
    simp only [List.length_nil, Nat.add_zero]
    rw [if_neg (by omega)]
    rfl
  | cons cells rest ih =>
    intro j h
    have hc : cells.length = bodyparts.length := h cells (List.mem_cons_self cells rest)
    have hr := ih (j + 1) (fun r hr => h r (List.mem_cons_of_mem cells hr))
    rw [stackFrom, List.countP_append, countP_stackRow, hr,
      countP_zip_fst bp bodyparts cells hc]
    simp only [List.length_cons]
    by_cases hji : j = i0
    · subst hji
      rw [if_pos rfl, if_neg (by omega), if_pos (by omega), Nat.add_zero]
    · rw [if_neg hji, Nat.zero_add]
      by_cases h2 : j + 1 ≤ i0 ∧ i0 < j + 1 + rest.length
      · rw [if_pos h2, if_pos (by omega)]
      · rw [if_neg h2, if_neg (by omega)]

/-- C1: for a single-animal DLC table whose every frame row has one cell
per bodypart, the restructuring succeeds and returns the long-format
table: a permutation of the stacked (frame, bodypart) cells sorted by
bodypart then frame, with one row per (frame, bodypart) pair (counted
with the multiplicity of the bodypart among the columns), model_str
equal to the scorer throughout, and the positional (reset) index of a
list. The single-level columns model_str, frame, bodypart, x, y,
likelihood in that order are the fields of `DLCRow`. -/
theorem read_and_restructure_single_animal_long_format (t : DLCFrameTable)
    (hs : t.individuals = none)
    (hwf : ∀ r ∈ t.rows, r.length = t.bodyparts.length) :
    ∃ out, read_and_restructure_DLC_dataframe t = .ok out ∧
      out.Perm (stackedRows t) ∧
      List.Sorted dlcLE out ∧
      out.length = t.rows.length * t.bodyparts.length ∧
      (∀ r ∈ out, r.model_str = t.scorer) ∧
      (∀ i bp, out.countP (fun r => decide (r.frame = i ∧ r.bodypart = bp)) =
        if i < t.rows.length then t.bodyparts.countP (fun b => decide (b = bp))
        else 0) := by
  have hlv : t.columnLevelNames = ["scorer", "bodyparts", "coords"] := by
    simp [DLCFrameTable.columnLevelNames, hs]
  have hread : read_and_restructure_DLC_dataframe t =
      .ok (List.insertionSort dlcLE (stackedRows t)) := by
    unfold read_and_restructure_DLC_dataframe
    rw [hlv]
    rfl
  have hperm : (List.insertionSort dlcLE (stackedRows t)).Perm (stackedRows t) :=
    List.perm_insertionSort dlcLE (stackedRows t)
  refine ⟨_, hread, hperm, List.sorted_insertionSort dlcLE (stackedRows t), ?_, ?_, ?_⟩
  · rw [hperm.length_eq]
    exact stackFrom_length t.scorer t.bodyparts t.rows 0 hwf
  · intro r hr
    exact stackFrom_model_str t.scorer t.bodyparts t.rows 0 r (hperm.mem_iff.mp hr)
  · intro i bp
    rw [hperm.countP_eq]
    unfold stackedRows
    rw [stackFrom_countP t.scorer t.bodyparts i bp t.rows 0 hwf]
    by_cases h : i < t.rows.length
    · rw [if_pos (by omega), if_pos h]
    · rw [if_neg (by omega), if_neg h]

/-- A concrete two-frame, two-bodypart single-animal DLC table. -/
def dlcDemo : DLCFrameTable :=
  { scorer := "DLC_resnet50_demo"
    individuals := none
    bodyparts := ["head", "thorax"]
    rows := [[⟨1, 2, 9⟩, ⟨3, 4, 8⟩], [⟨5, 6, 7⟩, ⟨7, 8, 6⟩]] }

/-- Closed instance of the C1 theorem on `dlcDemo`. -/
theorem read_and_restructure_single_animal_long_format_witness :
    dlcDemo.individuals = none ∧
    (∀ r ∈ dlcDemo.rows, r.length = dlcDemo.bodyparts.length) ∧
    ∃ out, read_and_restructure_DLC_dataframe dlcDemo = .ok out ∧
      out.Perm (stackedRows dlcDemo) ∧
      List.Sorted dlcLE out ∧
      out.length = dlcDemo.rows.length * dlcDemo.bodyparts.length ∧
      (∀ r ∈ out, r.model_str = dlcDemo.scorer) ∧
      (∀ i bp, out.countP (fun r => decide (r.frame = i ∧ r.bodypart = bp)) =
        if i < dlcDemo.rows.length then
          dlcDemo.bodyparts.countP (fun b => decide (b = bp))
        else 0) :=
  ⟨rfl, by decide,
   read_and_restructure_single_animal_long_format dlcDemo rfl (by decide)⟩

/-- C9: a multianimal table (one whose column levels include
"individuals") makes the restructuring raise instead of returning,
because the code asks to stack a level named "individual" which is not
among the column level names. -/
theorem read_and_restructure_multianimal_raises (t : DLCFrameTable)
    (h : t.individuals.isSome = true) :
    ∃ e, read_and_restructure_DLC_dataframe t = .error e := by
  obtain ⟨ids, hids⟩ := Option.isSome_iff_exists.mp h
  have hlv : t.columnLevelNames = ["scorer", "individuals", "bodyparts", "coords"] := by
    simp [DLCFrameTable.columnLevelNames, hids]
  refine ⟨"KeyError: level individual not found in columns", ?_⟩
  unfold read_and_restructure_DLC_dataframe
  rw [hlv]
  rfl

/-- A concrete multianimal DLC table. -/
def dlcDemoMulti : DLCFrameTable :=
  { scorer := "DLC_resnet50_demo"
    individuals := some ["ind1", "ind2"]
    bodyparts := ["head"]
    rows := [[⟨1, 2, 9⟩]] }

/-- Closed instance of the C9 theorem on `dlcDemoMulti`. -/
theorem read_and_restructure_multianimal_raises_witness :
    dlcDemoMulti.individuals.isSome = true ∧
    ∃ e, read_and_restructure_DLC_dataframe dlcDemoMulti = .error e :=
  ⟨rfl, read_and_restructure_multianimal_raises dlcDemoMulti rfl⟩

/-- A region of interest as a polygon: its area (used for the
smallest-first tag hierarchy) and a point-membership test. The geometry
itself lives in code that is not under src/, so the polygon is kept
abstract as these two observables. -/
structure Polygon where
  area : Int
  containsPoint : Int → Int → Bool

/-- The parts of a video's metadata YAML file that
`get_dataframes_to_combine` reads: the optional "Events" map from event
name to frame number and the optional "ROIs" list of (name, svg path)
entries. -/
structure Metadata where
  events : Option (List (String × Nat))
  rois : Option (List (String × String))

/-- The app-storage config entries used by `get_dataframes_to_combine`. -/
structure CombineConfig where
  pose_estimation_results_path : String
  model_str : String
  videos_dir_path : String

/-- The files on disk: pose-estimation h5 files and metadata YAML files,
both looked up by path. A missing path models FileNotFoundError. -/
structure PoseFileSystem where
  h5files : List (String × DLCFrameTable)
  yamlfiles : List (String × Metadata)

/-- A row of a per-video export dataframe; the fields are the
single-level columns in their final order: model_str, the video_file
column inserted at position 1 (utils.py line 312), the pose columns, and
the appended ROI_tag and event_tag columns. -/
structure ExportRow where
  model_str : String
  video_file : String
  frame : Nat
  bodypart : String
  x : Int
  y : Int
  likelihood : Int
  ROI_tag : String
  event_tag : String
deriving DecidableEq

/-- A pose row with the video_file column inserted and the ROI_tag and
event_tag columns initialised to the empty string (utils.py lines 312,
320 and 333). -/
def ExportRow.ofPose (video : String) (r : DLCRow) : ExportRow :=
  ⟨r.model_str, video, r.frame, r.bodypart, r.x, r.y, r.likelihood, "", ""⟩

/-- The pose-table part of an export row. -/
def ExportRow.toPose (r : ExportRow) : DLCRow :=
  ⟨r.model_str, r.frame, r.bodypart, r.x, r.y, r.likelihood⟩

/-- Ordering of named ROIs by polygon area (smallest first). -/
def roiAreaLE (a b : String × Polygon) : Prop := a.2.area ≤ b.2.area

instance : DecidableRel roiAreaLE := fun a b => by
  unfold roiAreaLE
  infer_instance

/-- One ROI pass over one row: set the tag when no tag was previously
set and the row's (x, y) point lies in the polygon. -/
def tagRowROI (np : String × Polygon) (r : ExportRow) : ExportRow :=
  if r.ROI_tag == "" && np.2.containsPoint r.x r.y then { r with ROI_tag := np.1 } else r

/-- Modelled from the spec: `add_ROIs_to_video_dataframe` is imported by
utils.py but its definition is not under src/. Per the source comments
(utils.py lines 314-319) it assigns the ROI tag per frame and bodypart,
starting from the smallest region and only setting a tag that was not
previously set. -/
def add_ROIs_to_video_dataframe (df : List ExportRow)
    (rois : List (String × Polygon)) : List ExportRow :=
  (List.insertionSort roiAreaLE rois).foldl (fun acc np => acc.map (tagRowROI np)) df

/-- One event pass over one row (utils.py line 337): rows at the event's
frame get the event name as tag. -/
def tagRowEvent (ev : String × Nat) (r : ExportRow) : ExportRow :=
  if r.frame == ev.2 then { r with event_tag := ev.1 } else r

/-- The event-tagging loop of utils.py lines 335-337, one pass per event
in file order. -/
def applyEventTags (events : List (String × Nat)) (df : List ExportRow) : List ExportRow :=
  events.foldl (fun acc ev => acc.map (tagRowEvent ev)) df

/-- h5 path for a selected video (utils.py lines 275-279). -/
def h5FilePath (cfg : CombineConfig) (video : String) : String :=
  cfg.pose_estimation_results_path ++ "/" ++ (stem video ++ cfg.model_str ++ ".h5")

/-- Metadata YAML path for a selected video (utils.py lines 286-288). -/
def metadataFilePath (cfg : CombineConfig) (video : String) : String :=
  cfg.videos_dir_path ++ "/" ++ (stem video ++ ".metadata.yaml")

/-- The comprehension `[metadata["Events"][x] for x in
slider_start_end_labels]` (utils.py line 293); a missing label raises a
KeyError. -/
def lookupEvents (events : List (String × Nat)) : List String → Option (List Nat)
  | [] => some []
  | l :: ls => do
    let v ← events.lookup l
    let vs ← lookupEvents events ls
    some (v :: vs)

/-- The ROI step of utils.py lines 320-328: the ROI_tag column starts
empty and is filled only when the metadata defines ROIs, whose svg paths
are turned into polygons first. `svgP` stands for svg_path_to_polygon,
which is not under src/; everything proved below holds for every
interpretation of it. -/
def roiStep (svgP : String → Polygon) (md : Metadata)
    (df : List ExportRow) : List ExportRow :=
  match md.rois with
  | some entries =>
    add_ROIs_to_video_dataframe df (entries.map (fun e => (e.1, svgP e.2)))
  | none => df

/-- The body of the per-video loop of utils.py `get_dataframes_to_combine`
(lines 283-340): load the video's metadata, extract the slider frame
range from its Events, read and restructure the h5 pose table, keep the
rows inside the frame range (both ends inclusive), insert the video_file
column, then tag ROIs and events. Any KeyError / missing file aborts. -/
def process_video (svgP : String → Polygon) (fs : PoseFileSystem) (cfg : CombineConfig)
    (slider_start_end_labels : List String) (video : String) : Option (List ExportRow) := do
  let metadata ← fs.yamlfiles.lookup (metadataFilePath cfg video)
  let events ← metadata.events
  let frame_start_end ← lookupEvents events slider_start_end_labels
  let fstart ← frame_start_end.get? 0
  let fend ← frame_start_end.get? 1
  let tbl ← fs.h5files.lookup (h5FilePath cfg video)
  let prows ← (read_and_restructure_DLC_dataframe tbl).toOption
  let df0 := prows.filter (fun r => decide (fstart ≤ r.frame ∧ r.frame ≤ fend))
  let df1 := df0.map (ExportRow.ofPose video)
  let df2 := roiStep svgP metadata df1
  let df3 := match metadata.events with
    | some evs => applyEventTags evs df2
    | none => df2
  some df3

/-- utils.py `get_dataframes_to_combine`: one export dataframe per
selected video, in order; the first failure aborts the whole export. -/
def get_dataframes_to_combine (svgP : String → Polygon) (fs : PoseFileSystem)
    (list_selected_videos : List String) (slider_start_end_labels : List String)
    (app_storage : CombineConfig) : Option (List (List ExportRow)) :=
  match list_selected_videos with
  | [] => some []
  | v :: vs => do
    let df ← process_video svgP fs app_storage slider_start_end_labels v
    let dfs ← get_dataframes_to_combine svgP fs vs slider_start_end_labels app_storage
    some (df :: dfs)

/-- Except.toOption succeeds exactly on ok results. -/
theorem except_toOption_eq_some {α β : Type} (e : Except α β) (b : β) :
    e.toOption = some b ↔ e = .ok b := by
  cases e <;> simp [Except.toOption]

/-- Success shape of the per-video export loop: each selected video is
processed independently, in order. -/
theorem get_dataframes_to_combine_eq_some (svgP : String → Polygon)
    (fs : PoseFileSystem) (slider : List String) (cfg : CombineConfig) :
    ∀ (videos : List String) (dfs : List (List ExportRow)),
      get_dataframes_to_combine svgP fs videos slider cfg = some dfs →
      dfs.length = videos.length ∧
      ∀ k v, videos.get? k = some v →
        ∃ df, dfs.get? k = some df ∧ process_video svgP fs cfg slider v = some df := by
  intro videos
  induction videos with
  | nil =>
    intro dfs h
    cases h
    refine ⟨rfl, ?_⟩
    intro k v hk
    simp at hk
  | cons v0 vs ih =>
    intro dfs h
    rw [get_dataframes_to_combine] at h
    cases hp : process_video svgP fs cfg slider v0 with
    | none => rw [hp] at h; cases h
    | some df0 =>
      rw [hp] at h
      cases hr : get_dataframes_to_combine svgP fs vs slider cfg with
      | none => rw [hr] at h; cases h
      | some rest =>
        rw [hr] at h
        cases h
        obtain ⟨hlen, hat⟩ := ih rest hr
        refine ⟨by simpa using hlen, ?_⟩
        intro k v hk
        match k with
        | 0 =>
          have hv : v0 = v := by simpa using hk
          subst hv
          exact ⟨df0, rfl, hp⟩
        | k' + 1 =>
          exact hat k' v hk

/-- Success shape of processing one video: all the lookups succeed and
the resulting dataframe is the tagged, sliced pose table. -/
theorem process_video_eq_some (svgP : String → Polygon) (fs : PoseFileSystem)
    (cfg : CombineConfig) (slider : List String) (video : String)
    (df : List ExportRow)
    (h : process_video svgP fs cfg slider video = some df) :
    ∃ md evs framesSE fstart fend tbl prows,
      fs.yamlfiles.lookup (metadataFilePath cfg video) = some md ∧
      md.events = some evs ∧
      lookupEvents evs slider = some framesSE ∧
      framesSE.get? 0 = some fstart ∧
      framesSE.get? 1 = some fend ∧
      fs.h5files.lookup (h5FilePath cfg video) = some tbl ∧
      read_and_restructure_DLC_dataframe tbl = .ok prows ∧
      df = applyEventTags evs (roiStep svgP md
        ((prows.filter (fun r => decide (fstart ≤ r.frame ∧ r.frame ≤ fend))).map
          (ExportRow.ofPose video))) := by
  rw [process_video] at h
  dsimp only [Option.bind_eq_bind] at h
  simp only [Option.bind_eq_some] at h
  obtain ⟨md, hmd, evs, hevs, framesSE, hle, fstart, h0, fend, h1, tbl, htbl,
    prows, hro, hfin⟩ := h
  have hdf := Option.some.inj hfin
  simp only [hevs] at hdf
  exact ⟨md, evs, framesSE, fstart, fend, tbl, prows, hmd, hevs, hle, h0, h1, htbl,
    (except_toOption_eq_some _ _).mp hro, hdf.symm⟩

/-- Reading off a single slider label through the Events comprehension. -/
theorem lookupEvents_get (evs : List (String × Nat)) :
    ∀ (ls : List String) (vs : List Nat), lookupEvents evs ls = some vs →
      ∀ j l, ls.get? j = some l →
        ∃ x, evs.lookup l = some x ∧ vs.get? j = some x := by
  intro ls
  induction ls with
  | nil =>
    intro vs h j l hj
    simp at hj
  | cons a as ih =>
    intro vs h j l hj
    rw [lookupEvents] at h
    cases ha : evs.lookup a with
    | none => rw [ha] at h; cases h
    | some x0 =>
      rw [ha] at h
      cases hrec : lookupEvents evs as with
      | none => rw [hrec] at h; cases h
      | some rest =>
        rw [hrec] at h
        cases h
        match j with
        | 0 =>
          have hl : a = l := by simpa using hj
          subst hl
          exact ⟨x0, ha, rfl⟩
        | j' + 1 =>
          exact ih rest hrec j' l hj

/-- The per-row ROI fold: the effect of the whole-dataframe ROI passes
on a single row. -/
def rowRoiFold (rois : List (String × Polygon)) (r : ExportRow) : ExportRow :=
  rois.foldl (fun r np => tagRowROI np r) r

/-- The per-row event fold: the effect of the whole-dataframe event
passes on a single row. -/
def rowEventFold (evs : List (String × Nat)) (r : ExportRow) : ExportRow :=
  evs.foldl (fun r ev => tagRowEvent ev r) r

/-- The first region in the given order containing the point names the
tag; otherwise the tag is the empty string. -/
def firstROIMatch : List (String × Polygon) → Int → Int → String
  | [], _, _ => ""
  | np :: rest, x, y => if np.2.containsPoint x y then np.1 else firstROIMatch rest x y

/-- A fold of row-wise dataframe passes is the row-wise fold applied to
each row. -/
theorem foldl_map_comm {β : Type} (f : β → ExportRow → ExportRow) :
    ∀ (l : List β) (df : List ExportRow),
      l.foldl (fun acc b => acc.map (f b)) df =
        df.map (fun r => l.foldl (fun r b => f b r) r) := by
  intro l
  induction l with
  | nil =>
    intro df
    simp
  | cons b l ih =>
    intro df
    rw [List.foldl_cons, ih, List.map_map]
    rfl

/-- The ROI step processes each row independently with the regions
sorted smallest-first. -/
theorem add_ROIs_eq_map (df : List ExportRow) (rois : List (String × Polygon)) :
    add_ROIs_to_video_dataframe df rois =
      df.map (rowRoiFold (List.insertionSort roiAreaLE rois)) :=
  foldl_map_comm tagRowROI (List.insertionSort roiAreaLE rois) df

/-- The event step processes each row independently. -/
theorem applyEventTags_eq_map (evs : List (String × Nat)) (df : List ExportRow) :
    applyEventTags evs df = df.map (rowEventFold evs) :=
  foldl_map_comm tagRowEvent evs df

/-- The ROI fold only ever rewrites the ROI_tag field. -/
theorem rowRoiFold_shape (rois : List (String × Polygon)) :
    ∀ r, ∃ tag, rowRoiFold rois r = { r with ROI_tag := tag } := by
  induction rois with
  | nil =>
    intro r
    exact ⟨r.ROI_tag, rfl⟩
  | cons np rest ih =>
    intro r
    obtain ⟨t2, h2⟩ := ih (tagRowROI np r)
    refine ⟨t2, ?_⟩
    show rowRoiFold rest (tagRowROI np r) = _
    rw [h2]
    by_cases hc : (r.ROI_tag == "" && np.2.containsPoint r.x r.y) = true
    · rw [tagRowROI, if_pos hc]
    · rw [tagRowROI, if_neg hc]

/-- The event fold only ever rewrites the event_tag field. -/
theorem rowEventFold_shape (evs : List (String × Nat)) :
    ∀ r, ∃ tag, rowEventFold evs r = { r with event_tag := tag } := by
  induction evs with
  | nil =>
    intro r
    exact ⟨r.event_tag, rfl⟩
  | cons ev rest ih =>
    intro r
    obtain ⟨t2, h2⟩ := ih (tagRowEvent ev r)
    refine ⟨t2, ?_⟩
    show rowEventFold rest (tagRowEvent ev r) = _
    rw [h2]
    by_cases hc : (r.frame == ev.2) = true
    · rw [tagRowEvent, if_pos hc]
    · rw [tagRowEvent, if_neg hc]

/-- A row whose ROI tag is already set is never retagged. -/
theorem rowRoiFold_of_ne (rois : List (String × Polygon)) :
    ∀ r, r.ROI_tag ≠ "" → rowRoiFold rois r = r := by
  induction rois with
  | nil => intro r _; rfl
  | cons np rest ih =>
    intro r h
    show rowRoiFold rest (tagRowROI np r) = r
    have hb : (r.ROI_tag == "") = false := by
      simp [h]
    have ht : tagRowROI np r = r := by
      rw [tagRowROI, hb]
      rfl
    rw [ht]
    exact ih r h

/-- On a row with no tag yet, the ROI fold writes exactly the name of
the first containing region of the pass order (given that region names
are nonempty). -/
theorem rowRoiFold_of_empty :
    ∀ (rois : List (String × Polygon)), (∀ np ∈ rois, np.1 ≠ "") →
      ∀ r, r.ROI_tag = "" →
        (rowRoiFold rois r).ROI_tag = firstROIMatch rois r.x r.y := by
  intro rois
  induction rois with
  | nil =>
    intro _ r h
    exact h
  | cons np rest ih =>
    intro hnames r h
    show (rowRoiFold rest (tagRowROI np r)).ROI_tag = _
    by_cases hc : np.2.containsPoint r.x r.y = true
    · have ht : tagRowROI np r = { r with ROI_tag := np.1 } := by
        rw [tagRowROI, if_pos (by simp [h, hc])]
      have hne : np.1 ≠ "" := hnames np (List.mem_cons_self np rest)
      rw [ht, rowRoiFold_of_ne rest _ (by simpa using hne), firstROIMatch, if_pos hc]
    · have ht : tagRowROI np r = r := by
        rw [tagRowROI, if_neg (by simp [hc])]
      rw [ht, ih (fun q hq => hnames q (List.mem_cons_of_mem np hq)) r h,
        firstROIMatch, if_neg hc]

/-- The event tag computed by the event fold, as a fold over the events
with last-match-wins. -/
theorem rowEventFold_tag (evs : List (String × Nat)) :
    ∀ r, (rowEventFold evs r).event_tag =
      evs.foldl (fun acc ev => if r.frame == ev.2 then ev.1 else acc) r.event_tag ∧
      (rowEventFold evs r).frame = r.frame := by
  induction evs with
  | nil =>
    intro r
    exact ⟨rfl, rfl⟩
  | cons ev rest ih =>
    intro r
    obtain ⟨ht, hf⟩ := ih (tagRowEvent ev r)
    constructor
    · show (rowEventFold rest (tagRowEvent ev r)).event_tag = _
      rw [ht, List.foldl_cons]
      by_cases hc : (r.frame == ev.2) = true
      · rw [tagRowEvent, if_pos hc, if_pos hc]
      · rw [tagRowEvent, if_neg hc, if_neg hc]
    · show (rowEventFold rest (tagRowEvent ev r)).frame = _
      rw [hf]
      by_cases hc : (r.frame == ev.2) = true
      · rw [tagRowEvent, if_pos hc]
      · rw [tagRowEvent, if_neg hc]

/-- When no event sits at the row's frame, the event-tag fold keeps the
initial value. -/
theorem eventFoldVal_no_match (frame : Nat) :
    ∀ (evs : List (String × Nat)) (dflt : String),
      (∀ e ∈ evs, e.2 ≠ frame) →
      evs.foldl (fun acc ev => if frame == ev.2 then ev.1 else acc) dflt = dflt := by
  intro evs
  induction evs with
  | nil => intro dflt _; rfl
  | cons ev rest ih =>
    intro dflt h
    rw [List.foldl_cons, if_neg (by simp [Ne.symm (h ev (List.mem_cons_self ev rest))]),
      ih dflt (fun e he => h e (List.mem_cons_of_mem ev he))]

/-- When some event sits at the row's frame, the event-tag fold returns
the name of one of the matching events. -/
theorem eventFoldVal_match (frame : Nat) :
    ∀ (evs : List (String × Nat)) (dflt : String),
      (∃ e ∈ evs, e.2 = frame) →
      ∃ e ∈ evs, e.2 = frame ∧
        evs.foldl (fun acc ev => if frame == ev.2 then ev.1 else acc) dflt = e.1 := by
  intro evs
  induction evs with
  | nil =>
    intro dflt h
    simp at h
  | cons ev rest ih =>
    intro dflt h
    by_cases hrest : ∃ e ∈ rest, e.2 = frame
    · obtain ⟨e, he, hfr, hval⟩ := ih (if frame == ev.2 then ev.1 else dflt) hrest
      exact ⟨e, List.mem_cons_of_mem ev he, hfr, by rw [List.foldl_cons]; exact hval⟩
    · have hev : ev.2 = frame := by
        obtain ⟨e, he, hfr⟩ := h
        rcases List.mem_cons.mp he with rfl | hmem
        · exact hfr
        · exact absurd ⟨e, hmem, hfr⟩ hrest
      refine ⟨ev, List.mem_cons_self ev rest, hev, ?_⟩
      rw [List.foldl_cons, if_pos (by simp [hev])]
      exact eventFoldVal_no_match frame rest ev.1
        (fun e he hfr => hrest ⟨e, he, hfr⟩)

/-- Event tagging does not change the pose columns. -/
theorem map_toPose_applyEventTags (evs : List (String × Nat)) (X : List ExportRow) :
    (applyEventTags evs X).map ExportRow.toPose = X.map ExportRow.toPose := by
  rw [applyEventTags_eq_map, List.map_map]
  have hf : ExportRow.toPose ∘ rowEventFold evs = ExportRow.toPose := by
    funext r
    obtain ⟨tag, htag⟩ := rowEventFold_shape evs r
    show ExportRow.toPose (rowEventFold evs r) = _
    rw [htag]
    rfl
  rw [hf]

/-- ROI tagging does not change the pose columns. -/
theorem map_toPose_roiStep (svgP : String → Polygon) (md : Metadata)
    (X : List ExportRow) :
    (roiStep svgP md X).map ExportRow.toPose = X.map ExportRow.toPose := by
  cases hro : md.rois with
  | none => simp only [roiStep, hro]
  | some entries =>
    simp only [roiStep, hro]
    rw [add_ROIs_eq_map, List.map_map]
    have hf : ExportRow.toPose ∘
        rowRoiFold (List.insertionSort roiAreaLE
          (entries.map (fun e => (e.1, svgP e.2)))) = ExportRow.toPose := by
      funext r
      obtain ⟨tag, htag⟩ := rowRoiFold_shape _ r
      show ExportRow.toPose _ = _
      rw [htag]
      rfl
    rw [hf]

/-- C5: the rows exported for a selected video are exactly the rows of
the restructured pose table whose frame lies between the frames of the
events named by the slider start and end labels, both ends inclusive. -/
theorem get_dataframes_to_combine_frame_slice
    (svgP : String → Polygon) (fs : PoseFileSystem) (cfg : CombineConfig)
    (videos slider : List String) (dfs : List (List ExportRow))
    (k : Nat) (v : String) (df : List ExportRow)
    (md : Metadata) (evs : List (String × Nat))
    (lbl0 lbl1 : String) (fstart fend : Nat) (tbl : DLCFrameTable)
    (prows : List DLCRow)
    (h : get_dataframes_to_combine svgP fs videos slider cfg = some dfs)
    (hk : videos.get? k = some v)
    (hdf : dfs.get? k = some df)
    (hmd : fs.yamlfiles.lookup (metadataFilePath cfg v) = some md)
    (hevs : md.events = some evs)
    (hl0 : slider.get? 0 = some lbl0) (hl1 : slider.get? 1 = some lbl1)
    (hstart : evs.lookup lbl0 = some fstart) (hend : evs.lookup lbl1 = some fend)
    (htbl : fs.h5files.lookup (h5FilePath cfg v) = some tbl)
    (hrows : read_and_restructure_DLC_dataframe tbl = .ok prows) :
    df.map ExportRow.toPose =
      prows.filter (fun r => decide (fstart ≤ r.frame ∧ r.frame ≤ fend)) := by
  obtain ⟨hlen, hat⟩ := get_dataframes_to_combine_eq_some svgP fs slider cfg videos dfs h
  obtain ⟨df2, hdf2, hproc⟩ := hat k v hk
  have hdfeq : df2 = df := by
    rw [hdf2] at hdf
    exact Option.some.inj hdf
  subst hdfeq
  obtain ⟨md', evs', framesSE, fstart', fend', tbl', prows', hmd', hevs', hle',
    h0', h1', htbl', hrows', hdfval⟩ :=
    process_video_eq_some svgP fs cfg slider v df2 hproc
  have em : md' = md := Option.some.inj (hmd'.symm.trans hmd)
  rw [em] at hevs' hdfval
  have ee : evs' = evs := Option.some.inj (hevs'.symm.trans hevs)
  rw [ee] at hle' hdfval
  obtain ⟨x0, hx0, hg0⟩ := lookupEvents_get evs slider framesSE hle' 0 lbl0 hl0
  obtain ⟨x1, hx1, hg1⟩ := lookupEvents_get evs slider framesSE hle' 1 lbl1 hl1
  have e0 : fstart' = fstart := by
    have hxa : x0 = fstart' := Option.some.inj (hg0.symm.trans h0')
    have hxb : x0 = fstart := Option.some.inj (hx0.symm.trans hstart)
    rw [← hxa, hxb]
  have et : tbl' = tbl := Option.some.inj (htbl'.symm.trans htbl)
  rw [et] at hrows'
  have ep : prows' = prows := Except.ok.inj (hrows'.symm.trans hrows)
  have e1 : fend' = fend := by
    have hxa : x1 = fend' := Option.some.inj (hg1.symm.trans h1')
    have hxb : x1 = fend := Option.some.inj (hx1.symm.trans hend)
    rw [← hxa, hxb]
  rw [e0, e1, ep] at hdfval
  rw [hdfval, map_toPose_applyEventTags, map_toPose_roiStep, List.map_map]
  have hco : ExportRow.toPose ∘ ExportRow.ofPose v = id := funext (fun r => rfl)
  rw [hco, List.map_id]

/-- C4: exported rows of a video with ROIs carry as ROI_tag the name of
the smallest-area region containing their (x, y) point (first match in
the smallest-first pass order, tags never overwritten), the empty string
when no region contains the point; rows of a video without ROIs all keep
the empty string. Region names are assumed nonempty, as an empty name is
indistinguishable from the unset tag. -/
theorem get_dataframes_to_combine_roi_tags
    (svgP : String → Polygon) (fs : PoseFileSystem) (cfg : CombineConfig)
    (videos slider : List String) (dfs : List (List ExportRow))
    (k : Nat) (v : String) (df : List ExportRow) (md : Metadata)
    (h : get_dataframes_to_combine svgP fs videos slider cfg = some dfs)
    (hk : videos.get? k = some v)
    (hdf : dfs.get? k = some df)
    (hmd : fs.yamlfiles.lookup (metadataFilePath cfg v) = some md) :
    (md.rois = none → ∀ r ∈ df, r.ROI_tag = "") ∧
    (∀ entries, md.rois = some entries →
      (∀ e ∈ entries, e.1 ≠ "") →
      ∀ r ∈ df, r.ROI_tag =
        firstROIMatch
          (List.insertionSort roiAreaLE (entries.map (fun e => (e.1, svgP e.2))))
          r.x r.y) := by
  obtain ⟨hlen, hat⟩ := get_dataframes_to_combine_eq_some svgP fs slider cfg videos dfs h
  obtain ⟨df2, hdf2, hproc⟩ := hat k v hk
  have hdfeq : df2 = df := by
    rw [hdf2] at hdf
    exact Option.some.inj hdf
  subst hdfeq
  obtain ⟨md', evs', framesSE, fstart', fend', tbl', prows', hmd', hevs', hle',
    h0', h1', htbl', hrows', hdfval⟩ :=
    process_video_eq_some svgP fs cfg slider v df2 hproc
  have em : md' = md := Option.some.inj (hmd'.symm.trans hmd)
  rw [em] at hdfval
  constructor
  · intro hnone r hr
    rw [hdfval, applyEventTags_eq_map] at hr
    obtain ⟨r1, hr1, rfl⟩ := List.mem_map.mp hr
    obtain ⟨t, ht⟩ := rowEventFold_shape evs' r1
    rw [ht]
    show r1.ROI_tag = ""
    simp only [roiStep, hnone] at hr1
    obtain ⟨p, hp, rfl⟩ := List.mem_map.mp hr1
    rfl
  · intro entries hsome hnames r hr
    rw [hdfval, applyEventTags_eq_map] at hr
    obtain ⟨r1, hr1, rfl⟩ := List.mem_map.mp hr
    obtain ⟨t, ht⟩ := rowEventFold_shape evs' r1
    rw [ht]
    show r1.ROI_tag = firstROIMatch _ r1.x r1.y
    simp only [roiStep, hsome] at hr1
    rw [add_ROIs_eq_map] at hr1
    obtain ⟨b, hb, rfl⟩ := List.mem_map.mp hr1
    obtain ⟨p, hp, rfl⟩ := List.mem_map.mp hb
    have hbroi : (ExportRow.ofPose v p).ROI_tag = "" := rfl
    have hnames2 : ∀ np ∈ List.insertionSort roiAreaLE
        (entries.map (fun e => (e.1, svgP e.2))), np.1 ≠ "" := by
      intro np hnp
      have hmem : np ∈ entries.map (fun e => (e.1, svgP e.2)) :=
        ((List.perm_insertionSort roiAreaLE _).mem_iff).mp hnp
      obtain ⟨e, he, rfl⟩ := List.mem_map.mp hmem
      exact hnames e he
    have hfold := rowRoiFold_of_empty _ hnames2 (ExportRow.ofPose v p) hbroi
    obtain ⟨t2, ht2⟩ := rowRoiFold_shape
      (List.insertionSort roiAreaLE (entries.map (fun e => (e.1, svgP e.2))))
      (ExportRow.ofPose v p)
    rw [hfold, ht2]

/-- C6: every exported row whose frame carries an event of the video's
metadata gets that event's name as event_tag (the last matching event in
file order), and rows at frames with no event keep the empty string. -/
theorem get_dataframes_to_combine_event_tags
    (svgP : String → Polygon) (fs : PoseFileSystem) (cfg : CombineConfig)
    (videos slider : List String) (dfs : List (List ExportRow))
    (k : Nat) (v : String) (df : List ExportRow) (md : Metadata)
    (evs : List (String × Nat))
    (h : get_dataframes_to_combine svgP fs videos slider cfg = some dfs)
    (hk : videos.get? k = some v)
    (hdf : dfs.get? k = some df)
    (hmd : fs.yamlfiles.lookup (metadataFilePath cfg v) = some md)
    (hevs : md.events = some evs) :
    ∀ r ∈ df,
      ((∃ e ∈ evs, e.2 = r.frame) → ∃ e ∈ evs, e.2 = r.frame ∧ r.event_tag = e.1) ∧
      ((∀ e ∈ evs, e.2 ≠ r.frame) → r.event_tag = "") := by
  obtain ⟨hlen, hat⟩ := get_dataframes_to_combine_eq_some svgP fs slider cfg videos dfs h
  obtain ⟨df2, hdf2, hproc⟩ := hat k v hk
  have hdfeq : df2 = df := by
    rw [hdf2] at hdf
    exact Option.some.inj hdf
  subst hdfeq
  obtain ⟨md', evs', framesSE, fstart', fend', tbl', prows', hmd', hevs', hle',
    h0', h1', htbl', hrows', hdfval⟩ :=
    process_video_eq_some svgP fs cfg slider v df2 hproc
  have em : md' = md := Option.some.inj (hmd'.symm.trans hmd)
  rw [em] at hevs' hdfval
  have ee : evs' = evs := Option.some.inj (hevs'.symm.trans hevs)
  rw [ee] at hdfval
  have hX : ∀ x ∈ roiStep svgP md
      ((prows'.filter
          (fun r => decide (fstart' ≤ r.frame ∧ r.frame ≤ fend'))).map
        (ExportRow.ofPose v)), x.event_tag = "" := by
    intro x hx
    cases hro : md.rois with
    | none =>
      simp only [roiStep, hro] at hx
      obtain ⟨p, hp, rfl⟩ := List.mem_map.mp hx
      rfl
    | some entries =>
      simp only [roiStep, hro] at hx
      rw [add_ROIs_eq_map] at hx
      obtain ⟨b, hb, rfl⟩ := List.mem_map.mp hx
      obtain ⟨p, hp, rfl⟩ := List.mem_map.mp hb
      obtain ⟨t2, ht2⟩ := rowRoiFold_shape _ (ExportRow.ofPose v p)
      rw [ht2]
      rfl
  intro r hr
  rw [hdfval, applyEventTags_eq_map] at hr
  obtain ⟨x, hx, rfl⟩ := List.mem_map.mp hr
  obtain ⟨ht, hfr⟩ := rowEventFold_tag evs x
  have hxe : x.event_tag = "" := hX x hx
  constructor
  · rintro ⟨e, he, hfre⟩
    rw [hfr] at hfre
    obtain ⟨e2, he2, hfr2, hval⟩ :=
      eventFoldVal_match x.frame evs x.event_tag ⟨e, he, hfre⟩
    refine ⟨e2, he2, ?_, ?_⟩
    · rw [hfr]
      exact hfr2
    · rw [ht]
      exact hval
  · intro hnone
    rw [ht, eventFoldVal_no_match x.frame evs x.event_tag
      (fun e he hc => hnone e he (by rw [hfr]; exact hc)), hxe]

/-- Interpretation of the missing svg_path_to_polygon used by the closed
witnesses: the area is the path string's length and the polygon contains
the points with x-coordinate 1. -/
def demoPolyFn : String → Polygon :=
  fun p => { area := (p.length : Int), containsPoint := fun x _ => x == 1 }

/-- Concrete config for the closed witnesses. -/
def demoCfg : CombineConfig :=
  { pose_estimation_results_path := "results"
    model_str := "DLC_model"
    videos_dir_path := "videos" }

/-- Concrete video metadata: two events and one ROI. -/
def demoMetadata : Metadata :=
  { events := some [("start", 0), ("end", 1)]
    rois := some [("r1", "p")] }

/-- Concrete file system holding the demo video's h5 and YAML files. -/
def demoFs : PoseFileSystem :=
  { h5files := [("results/v1DLC_model.h5", dlcDemo)]
    yamlfiles := [("videos/v1.metadata.yaml", demoMetadata)] }

/-- Concrete slider labels. -/
def demoSlider : List String := ["start", "end"]

/-- The export result on the demo scenario. -/
def demoDfs : List (List ExportRow) :=
  (get_dataframes_to_combine demoPolyFn demoFs ["v1.avi"] demoSlider demoCfg).getD []

/-- The demo video's exported dataframe. -/
def demoDf : List ExportRow := (demoDfs.get? 0).getD []

/-- The demo video's restructured pose table. -/
def demoProws : List DLCRow :=
  ((read_and_restructure_DLC_dataframe dlcDemo).toOption).getD []

/-- Closed instance of the C5 theorem on the demo scenario. -/
theorem get_dataframes_to_combine_frame_slice_witness :
    (get_dataframes_to_combine demoPolyFn demoFs ["v1.avi"] demoSlider demoCfg =
      some demoDfs) ∧
    (["v1.avi"].get? 0 = some "v1.avi") ∧
    (demoDfs.get? 0 = some demoDf) ∧
    (demoFs.yamlfiles.lookup (metadataFilePath demoCfg "v1.avi") = some demoMetadata) ∧
    (demoMetadata.events = some [("start", 0), ("end", 1)]) ∧
    (demoSlider.get? 0 = some "start") ∧ (demoSlider.get? 1 = some "end") ∧
    (([("start", 0), ("end", 1)] : List (String × Nat)).lookup "start" = some 0) ∧
    (([("start", 0), ("end", 1)] : List (String × Nat)).lookup "end" = some 1) ∧
    (demoFs.h5files.lookup (h5FilePath demoCfg "v1.avi") = some dlcDemo) ∧
    (read_and_restructure_DLC_dataframe dlcDemo = .ok demoProws) ∧
    demoDf.map ExportRow.toPose =
      demoProws.filter (fun r => decide (0 ≤ r.frame ∧ r.frame ≤ 1)) :=
  ⟨by rfl, by rfl, by rfl, by rfl, by rfl, by rfl, by rfl, by rfl, by rfl, by rfl,
   by rfl,
   get_dataframes_to_combine_frame_slice demoPolyFn demoFs demoCfg ["v1.avi"]
     demoSlider demoDfs 0 "v1.avi" demoDf demoMetadata [("start", 0), ("end", 1)]
     "start" "end" 0 1 dlcDemo demoProws (by rfl) (by rfl) (by rfl) (by rfl) (by rfl)
     (by rfl) (by rfl) (by rfl) (by rfl) (by rfl) (by rfl)⟩

/-- Closed instance of the C4 theorem on the demo scenario. -/
theorem get_dataframes_to_combine_roi_tags_witness :
    (get_dataframes_to_combine demoPolyFn demoFs ["v1.avi"] demoSlider demoCfg =
      some demoDfs) ∧
    (["v1.avi"].get? 0 = some "v1.avi") ∧
    (demoDfs.get? 0 = some demoDf) ∧
    (demoFs.yamlfiles.lookup (metadataFilePath demoCfg "v1.avi") = some demoMetadata) ∧
    ((demoMetadata.rois = none → ∀ r ∈ demoDf, r.ROI_tag = "") ∧
     (∀ entries, demoMetadata.rois = some entries →
       (∀ e ∈ entries, e.1 ≠ "") →
       ∀ r ∈ demoDf, r.ROI_tag =
         firstROIMatch
           (List.insertionSort roiAreaLE (entries.map (fun e => (e.1, demoPolyFn e.2))))
           r.x r.y)) :=
  ⟨by rfl, by rfl, by rfl, by rfl,
   get_dataframes_to_combine_roi_tags demoPolyFn demoFs demoCfg ["v1.avi"] demoSlider
     demoDfs 0 "v1.avi" demoDf demoMetadata (by rfl) (by rfl) (by rfl) (by rfl)⟩

/-- Closed instance of the C6 theorem on the demo scenario. -/
theorem get_dataframes_to_combine_event_tags_witness :
    (get_dataframes_to_combine demoPolyFn demoFs ["v1.avi"] demoSlider demoCfg =
      some demoDfs) ∧
    (["v1.avi"].get? 0 = some "v1.avi") ∧
    (demoDfs.get? 0 = some demoDf) ∧
    (demoFs.yamlfiles.lookup (metadataFilePath demoCfg "v1.avi") = some demoMetadata) ∧
    (demoMetadata.events = some [("start", 0), ("end", 1)]) ∧
    ∀ r ∈ demoDf,
      ((∃ e ∈ ([("start", 0), ("end", 1)] : List (String × Nat)), e.2 = r.frame) →
        ∃ e ∈ ([("start", 0), ("end", 1)] : List (String × Nat)),
          e.2 = r.frame ∧ r.event_tag = e.1) ∧
      ((∀ e ∈ ([("start", 0), ("end", 1)] : List (String × Nat)), e.2 ≠ r.frame) →
        r.event_tag = "") :=
  ⟨by rfl, by rfl, by rfl, by rfl, by rfl,
   get_dataframes_to_combine_event_tags demoPolyFn demoFs demoCfg ["v1.avi"] demoSlider
     demoDfs 0 "v1.avi" demoDf demoMetadata [("start", 0), ("end", 1)]
     (by rfl) (by rfl) (by rfl) (by rfl) (by rfl)⟩

end Beekeeper
